import Mathlib

/-!
# Sobel filter (sobel_filter/SYCL/src/sobelfilter.cpp)

A shallow embedding of the `computeGradient` kernel, of the launch geometry and
of the host loop of `main`, with theorems about them.

Modelling conventions.

* A device or host buffer of `unsigned char` is a `List Nat` (row-major, one
  entry per byte).  An access outside the buffer is a fault: `load` and `store`
  return `none`.
* `int` and `size_t` values are integers of `Int` and `Nat`; the division of
  `int` is `Int.tdiv`.  No index the kernel forms exceeds `rows * cols`, and no
  work-item coordinate exceeds `rows` or `cols + 62`, so all of them are in the
  range of a 32-bit `int` for the images `imread` returns (at most `2 ^ 30`
  samples by default).  `indexArithmetic` is the index arithmetic of the kernel
  with every `int` operation checked; `indexArithmetic_eq` shows that none
  overflows when `rows * cols` is an `int`.
* The `float` arithmetic of the kernel is carried out in `Int`.  The samples are
  bytes and the weights are integers of magnitude at most 2, so `gradient_x` and
  `gradient_y` are integers of magnitude at most 1020 and the sum of their
  squares is an integer below `2 ^ 24` (`gradient_bounds`): every intermediate
  value is a `float` and no operation rounds.
* `sycl::sqrt` is the correctly rounded square root, whose integer part is that
  of the real root for an integer below `2 ^ 24`; assigning it to an
  `unsigned char` truncates toward zero.  For a value that does not fit a byte
  the language leaves the conversion to the implementation; it is the parameter
  `ovf` here.
* The work-items of a launch run one after the other in some order
  (`runItems`); the theorems about a launch hold for every order.
* What the SYCL runtime may do in an iteration of the host loop (failed
  allocation, content of fresh memory, exceptions) is a parameter (`Runtime`).
-/

namespace Sobel

/-! ## Buffers -/

/-- Read of `buf[i]` for an `int` index `i`. -/
def load (buf : List Nat) (i : Int) : Option Nat :=
  if 0 ≤ i then buf[i.toNat]? else none

/-- Write `buf[i] = v` for an `int` index `i`. -/
def store (buf : List Nat) (i : Int) (v : Nat) : Option (List Nat) :=
  if 0 ≤ i ∧ i.toNat < buf.length then some (buf.set i.toNat v) else none

/-- Sample `(r, c)` of a row-major buffer with `C` columns (0 outside it). -/
def pixelAt (buf : List Nat) (C r c : Nat) : Nat :=
  buf.getD (r * C + c) 0

/-! ## The kernel -/

/-- The values of `sycl::nd_item<3>` the kernel asks for (dimensions 1 and 2). -/
structure NdItem where
  group1 : Nat
  group2 : Nat
  localRange1 : Nat
  localRange2 : Nat
  localId1 : Nat
  localId2 : Nat
  deriving DecidableEq, Repr

/-- The table `gradientx` of `computeGradient`. -/
def gradientx : Fin 3 → Fin 3 → Int :=
  ![![-1, 0, 1], ![-2, 0, 2], ![-1, 0, 1]]

/-- The table `gradienty` of `computeGradient`. -/
def gradienty : Fin 3 → Fin 3 → Int :=
  ![![-1, -2, -1], ![0, 0, 0], ![1, 2, 1]]

/-- The variable `row` of `computeGradient`. -/
def NdItem.row (item : NdItem) : Int :=
  ((item.group1 * item.localRange1 + item.localId1 : Nat) : Int)

/-- The variable `col` of `computeGradient`. -/
def NdItem.col (item : NdItem) : Int :=
  ((item.group2 * item.localRange2 + item.localId2 : Nat) : Int)

/-- The early-return condition of `computeGradient`. -/
def guardCond (rows cols row col : Int) : Bool :=
  decide (row ≥ rows - 2) || decide (col ≥ cols - 2)

/-- The locals of a work-item that is past the guard. -/
structure Locals where
  index : Int
  gradient_x : Int
  gradient_y : Int
  deriving DecidableEq, Repr

/-- The part of `computeGradient` between the guard and the store: the index
arithmetic, the nine reads and the two weighted sums. -/
def gradients (input : List Nat) (cols row col : Int) : Option Locals := do
  let index := row * cols + col + cols + 1
  let index_row_above := index - cols
  let index_row_below := index + cols
  let a0 ← load input (index_row_above - 1)
  let a1 ← load input index_row_above
  let a2 ← load input (index_row_above + 1)
  let m0 ← load input (index - 1)
  let m1 ← load input index
  let m2 ← load input (index + 1)
  let b0 ← load input (index_row_below - 1)
  let b1 ← load input index_row_below
  let b2 ← load input (index_row_below + 1)
  let gradient_x : Int :=
    gradientx 0 0 * a0 + gradientx 0 1 * a1 + gradientx 0 2 * a2 +
    gradientx 1 0 * m0 + gradientx 1 1 * m1 + gradientx 1 2 * m2 +
    gradientx 2 0 * b0 + gradientx 2 1 * b1 + gradientx 2 2 * b2
  let gradient_y : Int :=
    gradienty 0 0 * a0 + gradienty 0 1 * a1 + gradienty 0 2 * a2 +
    gradienty 1 0 * m0 + gradienty 1 1 * m1 + gradienty 1 2 * m2 +
    gradienty 2 0 * b0 + gradienty 2 1 * b1 + gradienty 2 2 * b2
  pure ⟨index, gradient_x, gradient_y⟩

/-- The byte that `output[index] = sycl::sqrt(s)` stores: the square root of `s`
truncated toward zero when that fits a byte, and the implementation's choice
`ovf s` otherwise. -/
def magnitudeByte (ovf : Nat → Nat) (s : Int) : Nat :=
  if Nat.sqrt s.toNat ≤ 255 then Nat.sqrt s.toNat else ovf s.toNat % 256

/-- The two device buffers the kernel is given pointers to. -/
structure Buffers where
  input : List Nat
  output : List Nat
  deriving DecidableEq, Repr

/-- One work-item of `computeGradient`: the two buffers after it, or `none` if
it faults. -/
def computeGradient (ovf : Nat → Nat) (mem : Buffers) (rows cols : Int)
    (item : NdItem) : Option Buffers :=
  let row := item.row
  let col := item.col
  if guardCond rows cols row col then some mem
  else do
    let l ← gradients mem.input cols row col
    let output ← store mem.output l.index
      (magnitudeByte ovf (l.gradient_x * l.gradient_x + l.gradient_y * l.gradient_y))
    pure { mem with output := output }

/-! ## The 3 x 3 sums of the specification -/

/-- The horizontal response at the window whose top-left sample is `(row, col)`. -/
def gxAt (S : List Nat) (C row col : Nat) : Int :=
  ∑ i : Fin 3, ∑ j : Fin 3, gradientx i j * (pixelAt S C (row + i) (col + j) : Int)

/-- The vertical response at the window whose top-left sample is `(row, col)`. -/
def gyAt (S : List Nat) (C row col : Nat) : Int :=
  ∑ i : Fin 3, ∑ j : Fin 3, gradienty i j * (pixelAt S C (row + i) (col + j) : Int)

/-- The byte the kernel stores for the window whose top-left sample is
`(row, col)`, i.e. for the centre `(row + 1, col + 1)`. -/
def kernelByte (ovf : Nat → Nat) (S : List Nat) (C row col : Nat) : Nat :=
  magnitudeByte ovf
    (gxAt S C row col * gxAt S C row col + gyAt S C row col * gyAt S C row col)

/-- The byte the kernel stores at flat index `k` of a buffer with `C` columns. -/
def byteAtIndex (ovf : Nat → Nat) (S : List Nat) (C k : Nat) : Nat :=
  kernelByte ovf S C (k / C - 1) (k % C - 1)

/-! ## The launch -/

/-- The constant `blockDim_x` of `main`. -/
def blockDim_x : Int := 64

/-- The constant `blockDim_y` of `main`. -/
def blockDim_y : Int := 2

/-- Conversion of an `int` that is not negative to `size_t`. -/
def toSizeT (x : Int) : Nat := x.toNat

/-- Dimensions 1 and 2 of `block` in `main`. -/
def block : Nat × Nat := (toSizeT blockDim_y, toSizeT blockDim_x)

/-- Dimensions 1 and 2 of `grid` in `main`; the division is that of `int`,
which truncates toward zero. -/
def grid (rows cols : Int) : Nat × Nat :=
  (toSizeT ((rows - 2 + blockDim_y - 1).tdiv blockDim_y),
   toSizeT ((cols - 2 + blockDim_x - 1).tdiv blockDim_x))

/-- The work-item with global id `(y, x)` in a launch with work-group size `b`. -/
def itemOfGlobalId (b : Nat × Nat) (id : Nat × Nat) : NdItem :=
  ⟨id.1 / b.1, id.2 / b.2, b.1, b.2, id.1 % b.1, id.2 % b.2⟩

/-- The work-items of `sycl::nd_range<3>(grid * block, block)`: one for each
global id below `grid * block` in dimensions 1 and 2. -/
def workItems (rows cols : Int) : List NdItem :=
  (List.range ((grid rows cols).1 * block.1) ×ˢ List.range ((grid rows cols).2 * block.2)).map
    (itemOfGlobalId block)

/-- Execution of the work-items `items` one after the other on the two
buffers; `none` if one of them faults. -/
def runItems (ovf : Nat → Nat) (rows cols : Int) : List NdItem → Buffers → Option Buffers
  | [], mem => some mem
  | item :: rest, mem =>
    (computeGradient ovf mem rows cols item).bind (runItems ovf rows cols rest)

/-- The `parallel_for` of `main` followed by `wait_and_throw`: the device
buffers once every work-item of the launch has run. -/
def launch (ovf : Nat → Nat) (mem : Buffers) (rows cols : Int) : Option Buffers :=
  runItems ovf rows cols (workItems rows cols) mem

/-! ## Work-items that store -/

/-- Flat index `k` is the store target of a work-item of `items` that passes the guard. -/
def Written (R C : Nat) (items : List NdItem) (k : Nat) : Prop :=
  ∃ item ∈ items, guardCond R C item.row item.col = false ∧
    (item.row + 1) * C + (item.col + 1) = (k : Int)

/-! ## A test image -/

/-- The 6 x 6 image whose samples are all 100 except sample `(3, 3)`, which is 0. -/
def image6 : List Nat :=
  (List.range 36).map fun k => if k = 3 * 6 + 3 then 0 else 100

/-! ## The host program -/

/-- The condition under which `main` reports the iteration count as being out
of range. -/
def iterationCountRejected (nIterations : Int) : Bool :=
  decide (nIterations < 0) || decide (nIterations > 100)

/-- A single-channel 8-bit `cv::Mat`, continuous in memory. -/
structure Mat where
  rows : Nat
  cols : Nat
  data : List Nat
  deriving DecidableEq, Repr

/-- The access `m.at<uchar>(i, j)` as a value. -/
def Mat.atUChar (m : Mat) (i j : Nat) : Nat :=
  m.data.getD (i * m.cols + j) 0

/-- The assignment `m.at<uchar>(i, j) = v`. -/
def Mat.setAt (m : Mat) (i j v : Nat) : Mat :=
  { m with data := m.data.set (i * m.cols + j) v }

/-- The matrix `cv::Mat::zeros(rows, cols, CV_8UC1)`. -/
def Mat.zeros (rows cols : Nat) : Mat :=
  ⟨rows, cols, List.replicate (rows * cols) 0⟩

/-- The two nested loops of `main` that fill `outputimage` from `gradientimage`. -/
def cropLoops (gradientimage outputimage : Mat) (rows cols : Int) : Mat :=
  (List.range (rows - 2).toNat).foldl
    (fun out i =>
      (List.range (cols - 2).toNat).foldl
        (fun out j => out.setAt i j (gradientimage.atUChar (i + 1) (j + 1))) out)
    outputimage

/-- Copy of the first `n` bytes of `src` over those of `dst`. -/
def memcpy (dst src : List Nat) (n : Nat) : List Nat :=
  src.take n ++ dst.drop n

/-- The device allocator: the allocations that are live, the next fresh
address, and counts of the calls made so far. -/
structure Device where
  live : List Nat
  next : Nat
  mallocs : Nat
  frees : Nat
  invalidFrees : Nat
  deriving DecidableEq, Repr

/-- The call `sycl::malloc_device`: a fresh allocation, or the null pointer
(`none`) when the device has no memory left (`ok = false`). -/
def malloc_device (ok : Bool) (dev : Device) : Option Nat × Device :=
  if ok then
    (some dev.next,
      { dev with live := dev.next :: dev.live, next := dev.next + 1, mallocs := dev.mallocs + 1 })
  else (none, dev)

/-- The call `sycl::free`: nothing for the null pointer, the release of a live
allocation, and an invalid free otherwise. -/
def free (ptr : Option Nat) (dev : Device) : Device :=
  match ptr with
  | none => dev
  | some p =>
    if p ∈ dev.live then { dev with live := dev.live.erase p, frees := dev.frees + 1 }
    else { dev with invalidFrees := dev.invalidFrees + 1 }

/-- What the SYCL runtime does during one iteration of the loop of `main`:
whether each allocation succeeds, what the fresh device memory holds, and
whether the upload, the kernel launch or the download raises. -/
structure Runtime where
  inputAllocated : Bool
  gradientAllocated : Bool
  uninitInput : Nat → Nat
  uninitGradient : Nat → Nat
  uploadRaises : Bool
  kernelRaises : Bool
  downloadRaises : Bool

/-- The part of the state of `main` that the loop changes. -/
structure Host where
  gradientimage : Mat
  device : Device
  deriving DecidableEq, Repr

/-- The body of the `while` loop of `main`.  The second component tells
whether an exception left the body; a device operation on a null pointer, and a
kernel that faults, raise.  No statement of the body catches, so an exception
skips the rest of it. -/
def iteration (ovf : Nat → Nat) (rt : Runtime) (scaledImage : Mat) (rows cols : Int)
    (globalsize : Nat) (h : Host) : Host × Bool :=
  let a1 := malloc_device rt.inputAllocated h.device
  let d_input := a1.1
  let a2 := malloc_device rt.gradientAllocated a1.2
  let d_gradient := a2.1
  let held : Host := { h with device := a2.2 }
  if rt.uploadRaises || d_input.isNone then (held, true)
  else
    let inputData := memcpy ((List.range globalsize).map rt.uninitInput) scaledImage.data globalsize
    if rt.kernelRaises || d_gradient.isNone then (held, true)
    else
      match launch ovf ⟨inputData, (List.range globalsize).map rt.uninitGradient⟩ rows cols with
      | none => (held, true)
      | some mem =>
        if rt.downloadRaises then (held, true)
        else
          ({ gradientimage :=
               { h.gradientimage with
                 data := memcpy h.gradientimage.data mem.output globalsize }
             device := free d_gradient (free d_input a2.2) }, false)

/-- The loop `while (counter > 0)` of `main`, for a counter that is not
negative; `rt counter` is what the runtime does while the counter has that value. -/
def mainLoop (ovf : Nat → Nat) (rt : Nat → Runtime) (scaledImage : Mat) (rows cols : Int)
    (globalsize : Nat) : Nat → Host → Host × Bool
  | 0, h => (h, false)
  | counter + 1, h =>
    match iteration ovf (rt (counter + 1)) scaledImage rows cols globalsize h with
    | (h', true) => (h', true)
    | (h', false) => mainLoop ovf rt scaledImage rows cols globalsize counter h'

/-- What `main` leaves behind: the output image if it got as far as building
one, and the state of the device allocator. -/
structure MainResult where
  outputimage : Option Mat
  device : Device
  deriving DecidableEq, Repr

/-- The function `main` from the check of the iteration count to the crop.
`logErrorThrows` tells whether `LOG_ERROR` (of `Logging.h`) throws; `hostUninit` is the content of the fresh `gradientimage`. -/
def main (ovf : Nat → Nat) (logErrorThrows : Bool) (rt : Nat → Runtime) (hostUninit : Nat → Nat)
    (scaledImage : Mat) (nIterations : Int) : MainResult :=
  let dev0 : Device := ⟨[], 0, 0, 0, 0⟩
  if iterationCountRejected nIterations && logErrorThrows then ⟨none, dev0⟩
  else if scaledImage.rows = 0 ∨ scaledImage.cols = 0 then ⟨none, dev0⟩
  else
    let rows : Int := scaledImage.rows
    let cols : Int := scaledImage.cols
    let globalsize := toSizeT (rows * cols)
    let gradientimage : Mat :=
      ⟨scaledImage.rows, scaledImage.cols, (List.range globalsize).map hostUninit⟩
    match mainLoop ovf rt scaledImage rows cols globalsize nIterations.toNat
        ⟨gradientimage, dev0⟩ with
    | (h, true) => ⟨none, h.device⟩
    | (h, false) =>
      if rows - 2 < 0 ∨ cols - 2 < 0 then ⟨none, h.device⟩
      else
        ⟨some (cropLoops h.gradientimage (Mat.zeros (rows - 2).toNat (cols - 2).toNat) rows cols),
          h.device⟩

/-- The least value of a 32-bit `int`. -/
def INT_MIN : Int := -2147483648

/-- The greatest value of a 32-bit `int`. -/
def INT_MAX : Int := 2147483647

/-- The result of an `int` operation whose mathematical value is `x`: `x` when
it is representable, and no result (the operation overflows) otherwise. -/
def checkedInt (x : Int) : Option Int :=
  if INT_MIN ≤ x ∧ x ≤ INT_MAX then some x else none

/-- The statement `size_t globalsize = rows * cols` of `main`: the product is
formed in `int` and then converted. -/
def globalsize (rows cols : Int) : Option Nat :=
  (checkedInt (rows * cols)).map toSizeT

/-- The indices a work-item forms: the one it stores at and the nine it reads,
in the order of the reads. -/
structure Stencil where
  index : Int
  reads : List Int
  deriving DecidableEq, Repr

/-- The index expressions of `computeGradient` with every operation carried out
in `int`: `index`, `index_row_above`, `index_row_below` and the nine subscripts
of `input`. -/
def indexArithmetic (cols row col : Int) : Option Stencil := do
  let p ← checkedInt (row * cols)
  let s ← checkedInt (p + col)
  let t ← checkedInt (s + cols)
  let index ← checkedInt (t + 1)
  let index_row_above ← checkedInt (index - cols)
  let index_row_below ← checkedInt (index + cols)
  let a0 ← checkedInt (index_row_above - 1)
  let a2 ← checkedInt (index_row_above + 1)
  let m0 ← checkedInt (index - 1)
  let m2 ← checkedInt (index + 1)
  let b0 ← checkedInt (index_row_below - 1)
  let b2 ← checkedInt (index_row_below + 1)
  pure ⟨index, [a0, index_row_above, a2, m0, index, m2, b0, index_row_below, b2]⟩

/-- The nine subscripts of `input` in `gradients`, in the order of the reads. -/
def readIndices (cols row col : Int) : List Int :=
  let index := row * cols + col + cols + 1
  let index_row_above := index - cols
  let index_row_below := index + cols
  [index_row_above - 1, index_row_above, index_row_above + 1,
   index - 1, index, index + 1,
   index_row_below - 1, index_row_below, index_row_below + 1]

/-! # Theorems -/

/-! ## Reads and writes inside the buffer -/

theorem flat_lt (R C r c : Nat) (hr : r < R) (hc : c < C) : r * C + c < R * C := by
  have h : (r + 1) * C ≤ R * C := Nat.mul_le_mul_right C hr
  have h2 : (r + 1) * C = r * C + C := by ring
  omega

theorem load_pixel (S : List Nat) (R C r c : Nat) (i : Int) (hlen : S.length = R * C)
    (hr : r < R) (hc : c < C) (hi : i = ((r * C + c : Nat) : Int)) :
    load S i = some (pixelAt S C r c) := by
  subst hi
  have hlt : r * C + c < S.length := hlen ▸ flat_lt R C r c hr hc
  have h0 : (0 : Int) ≤ ((r * C + c : Nat) : Int) := Int.natCast_nonneg _
  rw [load, if_pos h0, Int.toNat_natCast, pixelAt, List.getD_eq_getElem?_getD,
    List.getElem?_eq_getElem hlt]
  rfl

theorem gradients_eq (S : List Nat) (R C row col : Nat) (hlen : S.length = R * C)
    (hrow : row + 2 < R) (hcol : col + 2 < C) :
    gradients S C row col
      = some ⟨(((row + 1) * C + (col + 1) : Nat) : Int), gxAt S C row col, gyAt S C row col⟩ := by
  have e00 := load_pixel S R C row col ((row : Int) * C + col + C + 1 - C - 1) hlen
    (by omega) (by omega) (by push_cast; ring)
  have e01 := load_pixel S R C row (col + 1) ((row : Int) * C + col + C + 1 - C) hlen
    (by omega) (by omega) (by push_cast; ring)
  have e02 := load_pixel S R C row (col + 2) ((row : Int) * C + col + C + 1 - C + 1) hlen
    (by omega) (by omega) (by push_cast; ring)
  have e10 := load_pixel S R C (row + 1) col ((row : Int) * C + col + C + 1 - 1) hlen
    (by omega) (by omega) (by push_cast; ring)
  have e11 := load_pixel S R C (row + 1) (col + 1) ((row : Int) * C + col + C + 1) hlen
    (by omega) (by omega) (by push_cast; ring)
  have e12 := load_pixel S R C (row + 1) (col + 2) ((row : Int) * C + col + C + 1 + 1) hlen
    (by omega) (by omega) (by push_cast; ring)
  have e20 := load_pixel S R C (row + 2) col ((row : Int) * C + col + C + 1 + C - 1) hlen
    (by omega) (by omega) (by push_cast; ring)
  have e21 := load_pixel S R C (row + 2) (col + 1) ((row : Int) * C + col + C + 1 + C) hlen
    (by omega) (by omega) (by push_cast; ring)
  have e22 := load_pixel S R C (row + 2) (col + 2) ((row : Int) * C + col + C + 1 + C + 1) hlen
    (by omega) (by omega) (by push_cast; ring)
  simp only [gradients, e00, e01, e02, e10, e11, e12, e20, e21, e22, Option.bind_eq_bind,
    Option.some_bind, Option.pure_def]
  congr 2
  · push_cast; ring
  · simp [gxAt, Fin.sum_univ_three, gradientx, Matrix.vecHead, Matrix.vecTail]
    ring
  · simp [gyAt, Fin.sum_univ_three, gradienty, Matrix.vecHead, Matrix.vecTail]
    ring

theorem index_div (C r c : Nat) (hc : c < C) : (r * C + c) / C = r := by
  have hC : 0 < C := by omega
  rw [Nat.add_comm, Nat.add_mul_div_right _ _ hC, Nat.div_eq_of_lt hc, Nat.zero_add]

theorem index_mod (C r c : Nat) (hc : c < C) : (r * C + c) % C = c := by
  rw [Nat.add_comm, Nat.add_mul_mod_self_right, Nat.mod_eq_of_lt hc]

theorem index_inj (C r c r' c' : Nat) (hc : c < C) (hc' : c' < C)
    (h : r * C + c = r' * C + c') : r = r' ∧ c = c' := by
  have h1 := index_div C r c hc
  have h2 := index_div C r' c' hc'
  have h3 := index_mod C r c hc
  have h4 := index_mod C r' c' hc'
  rw [h] at h1 h3
  exact ⟨by omega, by omega⟩

theorem byteAtIndex_centre (ovf : Nat → Nat) (S : List Nat) (C row col : Nat)
    (hcol : col + 2 < C) :
    byteAtIndex ovf S C ((row + 1) * C + (col + 1)) = kernelByte ovf S C row col := by
  rw [byteAtIndex, index_div C (row + 1) (col + 1) (by omega),
    index_mod C (row + 1) (col + 1) (by omega)]
  rfl

theorem guardCond_false_iff (R C row col : Nat) :
    guardCond R C row col = false ↔ row + 2 < R ∧ col + 2 < C := by
  simp only [guardCond, Bool.or_eq_false_iff, decide_eq_false_iff_not]
  omega

theorem computeGradient_guarded (ovf : Nat → Nat) (mem : Buffers) (rows cols : Int)
    (item : NdItem) (h : guardCond rows cols item.row item.col = true) :
    computeGradient ovf mem rows cols item = some mem := by
  simp [computeGradient, h]

theorem computeGradient_inside (ovf : Nat → Nat) (S D : List Nat) (R C row col : Nat)
    (item : NdItem) (hS : S.length = R * C) (hD : D.length = R * C)
    (hr : item.row = row) (hc : item.col = col) (hrow : row + 2 < R) (hcol : col + 2 < C) :
    computeGradient ovf ⟨S, D⟩ R C item
      = some ⟨S, D.set ((row + 1) * C + (col + 1)) (kernelByte ovf S C row col)⟩ := by
  have hg : guardCond R C item.row item.col = false := by
    rw [hr, hc]; exact (guardCond_false_iff R C row col).2 ⟨hrow, hcol⟩
  rw [hr, hc] at hg
  have hlt : (row + 1) * C + (col + 1) < D.length :=
    hD ▸ flat_lt R C (row + 1) (col + 1) (by omega) (by omega)
  have h0 : (0 : Int) ≤ (((row + 1) * C + (col + 1) : Nat) : Int) := Int.natCast_nonneg _
  simp only [computeGradient, hg, hr, hc, gradients_eq S R C row col hS hrow hcol,
    Option.bind_eq_bind, Option.some_bind, store, Int.toNat_natCast, Bool.false_eq_true,
    if_false]
  rw [if_pos ⟨h0, hlt⟩]
  rfl

/-! ## The effect of a sequence of work-items -/

theorem runItems_spec (ovf : Nat → Nat) (S : List Nat) (R C : Nat) (hS : S.length = R * C)
    (items : List NdItem) :
    ∀ D : List Nat, D.length = R * C →
      ∃ D', runItems ovf R C items ⟨S, D⟩ = some ⟨S, D'⟩ ∧ D'.length = R * C ∧
        ∀ k, (Written R C items k → D'[k]? = some (byteAtIndex ovf S C k)) ∧
          (¬ Written R C items k → D'[k]? = D[k]?) := by
  induction items with
  | nil =>
    intro D hD
    refine ⟨D, rfl, hD, fun k => ⟨?_, fun _ => rfl⟩⟩
    rintro ⟨item, hmem, _⟩
    cases hmem
  | cons item rest ih =>
    intro D hD
    cases hg : guardCond R C item.row item.col with
    | true =>
      obtain ⟨D', hrun, hlen, hk⟩ := ih D hD
      refine ⟨D', ?_, hlen, fun k => ?_⟩
      · simp [runItems, computeGradient_guarded ovf ⟨S, D⟩ R C item hg, hrun]
      · have hiff : Written R C (item :: rest) k ↔ Written R C rest k := by
          constructor
          · rintro ⟨it, hmem, hgi, hidx⟩
            rcases List.mem_cons.1 hmem with rfl | hmem
            · rw [hg] at hgi; cases hgi
            · exact ⟨it, hmem, hgi, hidx⟩
          · rintro ⟨it, hmem, hgi, hidx⟩
            exact ⟨it, List.mem_cons_of_mem _ hmem, hgi, hidx⟩
        rw [hiff]
        exact hk k
    | false =>
      have hr : item.row = ((item.group1 * item.localRange1 + item.localId1 : Nat) : Int) := rfl
      have hc : item.col = ((item.group2 * item.localRange2 + item.localId2 : Nat) : Int) := rfl
      generalize item.group1 * item.localRange1 + item.localId1 = row at hr
      generalize item.group2 * item.localRange2 + item.localId2 = col at hc
      have hin : row + 2 < R ∧ col + 2 < C := by
        rw [hr, hc] at hg
        exact (guardCond_false_iff R C row col).1 hg
      have hstep := computeGradient_inside ovf S D R C row col item hS hD hr hc hin.1 hin.2
      have hlt : (row + 1) * C + (col + 1) < D.length :=
        hD ▸ flat_lt R C (row + 1) (col + 1) (by omega) (by omega)
      obtain ⟨D', hrun, hlen, hk⟩ :=
        ih (D.set ((row + 1) * C + (col + 1)) (kernelByte ovf S C row col))
          (by rw [List.length_set]; exact hD)
      refine ⟨D', ?_, hlen, fun k => ⟨?_, ?_⟩⟩
      · simp [runItems, hstep, hrun]
      · intro hw
        by_cases hrest : Written R C rest k
        · exact (hk k).1 hrest
        · rw [(hk k).2 hrest]
          obtain ⟨it, hmem, hgi, hidx⟩ := hw
          rcases List.mem_cons.1 hmem with rfl | hmem
          · have hkeq : k = (row + 1) * C + (col + 1) := by
              rw [hr, hc] at hidx
              have : (((row + 1) * C + (col + 1) : Nat) : Int) = (k : Int) := by
                push_cast; exact hidx
              exact (Int.ofNat_inj.1 this).symm
            subst hkeq
            rw [List.getElem?_set_self hlt, byteAtIndex_centre ovf S C row col hin.2]
          · exact absurd ⟨it, hmem, hgi, hidx⟩ hrest
      · intro hw
        have hrest : ¬ Written R C rest k := fun ⟨it, hmem, hgi, hidx⟩ =>
          hw ⟨it, List.mem_cons_of_mem _ hmem, hgi, hidx⟩
        rw [(hk k).2 hrest]
        have hne : (row + 1) * C + (col + 1) ≠ k := by
          intro heq
          apply hw
          refine ⟨item, List.mem_cons_self _ _, hg, ?_⟩
          rw [hr, hc, ← heq]
          push_cast
          ring
        exact List.getElem?_set_ne hne

/-! ## The launch geometry -/

theorem block_eq : block = (2, 64) := rfl

theorem grid_eq (R C : Nat) : grid R C = ((R - 1) / 2, (C + 61) / 64) := by
  have h1 : toSizeT (((R : Int) - 2 + blockDim_y - 1).tdiv blockDim_y) = (R - 1) / 2 := by
    rcases Nat.eq_zero_or_pos R with h | h
    · subst h; rfl
    · have e : (R : Int) - 2 + blockDim_y - 1 = ((R - 1 : Nat) : Int) := by
        simp only [blockDim_y]; omega
      have e2 : blockDim_y = ((2 : Nat) : Int) := rfl
      rw [e, e2, ← Int.ofNat_tdiv, toSizeT, Int.toNat_natCast]
  have h2 : toSizeT (((C : Int) - 2 + blockDim_x - 1).tdiv blockDim_x) = (C + 61) / 64 := by
    have e : (C : Int) - 2 + blockDim_x - 1 = ((C + 61 : Nat) : Int) := by
      simp only [blockDim_x]; omega
    have e2 : blockDim_x = ((64 : Nat) : Int) := rfl
    rw [e, e2, ← Int.ofNat_tdiv, toSizeT, Int.toNat_natCast]
  simp only [grid, h1, h2]

theorem mem_workItems (R C : Nat) (item : NdItem) :
    item ∈ workItems R C ↔
      ∃ y x, y < (R - 1) / 2 * 2 ∧ x < (C + 61) / 64 * 64 ∧
        item = ⟨y / 2, x / 64, 2, 64, y % 2, x % 64⟩ := by
  simp only [workItems, grid_eq, block_eq, List.mem_map, Prod.exists, List.mem_product,
    List.mem_range, itemOfGlobalId]
  constructor
  · rintro ⟨y, x, ⟨hy, hx⟩, rfl⟩
    exact ⟨y, x, hy, hx, rfl⟩
  · rintro ⟨y, x, hy, hx, rfl⟩
    exact ⟨y, x, ⟨hy, hx⟩, rfl⟩

theorem row_of_globalId (y x : Nat) :
    (⟨y / 2, x / 64, 2, 64, y % 2, x % 64⟩ : NdItem).row = (y : Int) := by
  simp only [NdItem.row]
  congr 1
  omega

theorem col_of_globalId (y x : Nat) :
    (⟨y / 2, x / 64, 2, 64, y % 2, x % 64⟩ : NdItem).col = (x : Int) := by
  simp only [NdItem.col]
  congr 1
  omega

theorem written_workItems (R C k : Nat) :
    Written R C (workItems R C) k ↔
      ∃ row col, row + 2 < R ∧ col + 2 < C ∧ k = (row + 1) * C + (col + 1) := by
  constructor
  · rintro ⟨item, hmem, hg, hidx⟩
    obtain ⟨y, x, _, _, rfl⟩ := (mem_workItems R C item).1 hmem
    rw [row_of_globalId, col_of_globalId] at hg hidx
    obtain ⟨hy, hx⟩ := (guardCond_false_iff R C y x).1 hg
    refine ⟨y, x, hy, hx, ?_⟩
    have : (((y + 1) * C + (x + 1) : Nat) : Int) = (k : Int) := by
      push_cast; exact hidx
    exact (Int.ofNat_inj.1 this).symm
  · rintro ⟨row, col, hrow, hcol, rfl⟩
    refine ⟨⟨row / 2, col / 64, 2, 64, row % 2, col % 64⟩, ?_, ?_, ?_⟩
    · exact (mem_workItems R C _).2 ⟨row, col, by omega, by omega, rfl⟩
    · rw [row_of_globalId, col_of_globalId]
      exact (guardCond_false_iff R C row col).2 ⟨hrow, hcol⟩
    · rw [row_of_globalId, col_of_globalId]
      push_cast
      ring

theorem written_of_perm (R C k : Nat) (order items : List NdItem) (h : order.Perm items) :
    Written R C order k ↔ Written R C items k := by
  constructor
  · rintro ⟨item, hmem, hrest⟩
    exact ⟨item, h.mem_iff.1 hmem, hrest⟩
  · rintro ⟨item, hmem, hrest⟩
    exact ⟨item, h.mem_iff.2 hmem, hrest⟩

/-- The effect of the launch, for any order in which its work-items run: it
does not fault, every centre `(row + 1, col + 1)` holds the kernel's byte, and
every other position of the output buffer is as before. -/
theorem schedule_spec (ovf : Nat → Nat) (S D : List Nat) (R C : Nat) (order : List NdItem)
    (hS : S.length = R * C) (hD : D.length = R * C) (hp : order.Perm (workItems R C)) :
    ∃ D', runItems ovf R C order ⟨S, D⟩ = some ⟨S, D'⟩ ∧ D'.length = R * C ∧
      (∀ row col, row + 2 < R → col + 2 < C →
        D'[(row + 1) * C + (col + 1)]? = some (kernelByte ovf S C row col)) ∧
      (∀ k, (¬ ∃ row col, row + 2 < R ∧ col + 2 < C ∧ k = (row + 1) * C + (col + 1)) →
        D'[k]? = D[k]?) := by
  obtain ⟨D', hrun, hlen, hk⟩ := runItems_spec ovf S R C hS order D hD
  refine ⟨D', hrun, hlen, ?_, ?_⟩
  · intro row col hrow hcol
    have hw : Written R C order ((row + 1) * C + (col + 1)) :=
      (written_of_perm R C _ order _ hp).2
        ((written_workItems R C _).2 ⟨row, col, hrow, hcol, rfl⟩)
    rw [(hk _).1 hw, byteAtIndex_centre ovf S C row col hcol]
  · intro k hno
    apply (hk k).2
    intro hw
    exact hno ((written_workItems R C k).1 ((written_of_perm R C k order _ hp).1 hw))

theorem launch_spec (ovf : Nat → Nat) (S D : List Nat) (R C : Nat)
    (hS : S.length = R * C) (hD : D.length = R * C) :
    ∃ D', launch ovf ⟨S, D⟩ R C = some ⟨S, D'⟩ ∧ D'.length = R * C ∧
      (∀ row col, row + 2 < R → col + 2 < C →
        D'[(row + 1) * C + (col + 1)]? = some (kernelByte ovf S C row col)) ∧
      (∀ k, (¬ ∃ row col, row + 2 < R ∧ col + 2 < C ∧ k = (row + 1) * C + (col + 1)) →
        D'[k]? = D[k]?) :=
  schedule_spec ovf S D R C (workItems R C) hS hD (List.Perm.refl _)

/-! ## Claims about the kernel -/

/-- C1: for an `R x C` image with `R, C ≥ 3` and a work-item `(row, col)` with
`row < R - 2` and `col < C - 2`, the nine reads are inside the buffer and are the
samples `(row + i, col + j)`, `i, j ∈ {0, 1, 2}`, of the row-major image, that
is the 3 x 3 window centred at `(row + 1, col + 1)`; `gradient_x` and
`gradient_y` are the sums of these samples weighted by the two fixed tables; and
the byte computed from them is stored at flat index `(row + 1) * C + (col + 1)`
of the output, the input being left as it is. -/
theorem C1_gradient_sums (ovf : Nat → Nat) (S D : List Nat) (R C : Nat) (item : NdItem)
    (row col : Nat) (hR : 3 ≤ R) (hC : 3 ≤ C) (hS : S.length = R * C) (hD : D.length = R * C)
    (hr : item.row = row) (hc : item.col = col) (hrow : row < R - 2) (hcol : col < C - 2) :
    gradientx = ![![-1, 0, 1], ![-2, 0, 2], ![-1, 0, 1]] ∧
    gradienty = ![![-1, -2, -1], ![0, 0, 0], ![1, 2, 1]] ∧
    (∀ i j : Fin 3, S[(row + i) * C + (col + j)]? = some (pixelAt S C (row + i) (col + j))) ∧
    gradients S C item.row item.col = some
      { index := (((row + 1) * C + (col + 1) : Nat) : Int)
        gradient_x :=
          ∑ i : Fin 3, ∑ j : Fin 3, gradientx i j * (pixelAt S C (row + i) (col + j) : Int)
        gradient_y :=
          ∑ i : Fin 3, ∑ j : Fin 3, gradienty i j * (pixelAt S C (row + i) (col + j) : Int) } ∧
    computeGradient ovf ⟨S, D⟩ R C item = some ⟨S, D.set ((row + 1) * C + (col + 1))
      (magnitudeByte ovf (gxAt S C row col * gxAt S C row col
        + gyAt S C row col * gyAt S C row col))⟩ := by
  have hrow2 : row + 2 < R := by omega
  have hcol2 : col + 2 < C := by omega
  refine ⟨rfl, rfl, ?_, ?_, ?_⟩
  · intro i j
    have hi : (i : Nat) < 3 := i.isLt
    have hj : (j : Nat) < 3 := j.isLt
    have hlt : (row + i) * C + (col + j) < S.length :=
      hS ▸ flat_lt R C (row + i) (col + j) (by omega) (by omega)
    rw [List.getElem?_eq_getElem hlt, pixelAt, List.getD_eq_getElem?_getD,
      List.getElem?_eq_getElem hlt]
    rfl
  · rw [hr, hc]
    exact gradients_eq S R C row col hS hrow2 hcol2
  · exact computeGradient_inside ovf S D R C row col item hS hD hr hc hrow2 hcol2

theorem C1_gradient_sums_witness :
    computeGradient (fun _ => 255) ⟨[1, 2, 3, 4, 5, 6, 7, 8, 9], [0, 0, 0, 0, 0, 0, 0, 0, 0]⟩
        ((3 : Nat) : Int) ((3 : Nat) : Int) (NdItem.mk 0 0 2 64 0 0)
      = some ⟨[1, 2, 3, 4, 5, 6, 7, 8, 9], [0, 0, 0, 0, 0, 0, 0, 0, 0].set ((0 + 1) * 3 + (0 + 1))
          (magnitudeByte (fun _ => 255)
            (gxAt [1, 2, 3, 4, 5, 6, 7, 8, 9] 3 0 0 * gxAt [1, 2, 3, 4, 5, 6, 7, 8, 9] 3 0 0
              + gyAt [1, 2, 3, 4, 5, 6, 7, 8, 9] 3 0 0 * gyAt [1, 2, 3, 4, 5, 6, 7, 8, 9] 3 0 0))⟩ :=
  (C1_gradient_sums (fun _ => 255) [1, 2, 3, 4, 5, 6, 7, 8, 9] [0, 0, 0, 0, 0, 0, 0, 0, 0] 3 3
    (NdItem.mk 0 0 2 64 0 0) 0 0 (by decide) (by decide) (by decide) (by decide) (by decide)
    (by decide) (by decide) (by decide)).2.2.2.2

/-! ## The stored byte -/

theorem magnitudeByte_small (ovf : Nat → Nat) (s : Int) (h : Nat.sqrt s.toNat ≤ 255) :
    magnitudeByte ovf s = Nat.sqrt s.toNat := by
  rw [magnitudeByte, if_pos h]

theorem sqrt_toNat_le (s : Int) (hmag : Real.sqrt (s : ℝ) ≤ 255) : Nat.sqrt s.toNat ≤ 255 := by
  rcases le_or_lt 0 s with h0 | h0
  · obtain ⟨n, rfl⟩ := Int.eq_ofNat_of_zero_le h0
    rw [Int.toNat_natCast]
    have h1 : ((Nat.sqrt n : ℕ) : ℝ) ≤ Real.sqrt (n : ℝ) := by
      rw [← Real.nat_floor_real_sqrt_eq_nat_sqrt]
      exact Nat.floor_le (Real.sqrt_nonneg _)
    have h2 : ((Nat.sqrt n : ℕ) : ℝ) ≤ 255 := by
      have e : (((n : ℤ) : ℝ)) = (n : ℝ) := by norm_cast
      rw [e] at hmag
      exact h1.trans hmag
    exact_mod_cast h2
  · have : s.toNat = 0 := by omega
    rw [this]
    decide

/-- C2, as amended: at every centre whose gradient magnitude does not exceed
255, the byte the launch stores is the magnitude truncated toward zero: the
largest integer `b` with `b * b ≤ gx * gx + gy * gy`, which is the floor of the
real square root. -/
theorem C2_stored_byte_truncates (ovf : Nat → Nat) (S D : List Nat) (R C row col : Nat)
    (hS : S.length = R * C) (hD : D.length = R * C) (hrow : row + 2 < R) (hcol : col + 2 < C)
    (hmag : Real.sqrt ((gxAt S C row col * gxAt S C row col
      + gyAt S C row col * gyAt S C row col : Int) : ℝ) ≤ 255) :
    ∃ D' b, launch ovf ⟨S, D⟩ R C = some ⟨S, D'⟩ ∧
      D'[(row + 1) * C + (col + 1)]? = some b ∧
      b ≤ 255 ∧
      (b : Int) * b ≤ gxAt S C row col * gxAt S C row col + gyAt S C row col * gyAt S C row col ∧
      gxAt S C row col * gxAt S C row col + gyAt S C row col * gyAt S C row col
        < ((b : Int) + 1) * (b + 1) ∧
      b = ⌊Real.sqrt ((gxAt S C row col * gxAt S C row col
        + gyAt S C row col * gyAt S C row col : Int) : ℝ)⌋₊ := by
  obtain ⟨D', hrun, _, hcentre, _⟩ := launch_spec ovf S D R C hS hD
  have hle := sqrt_toNat_le _ hmag
  refine ⟨D', _, hrun, hcentre row col hrow hcol, ?_, ?_, ?_, ?_⟩
  all_goals rw [kernelByte, magnitudeByte_small ovf _ hle]
  · exact hle
  all_goals
    have h0 : (0 : Int) ≤ gxAt S C row col * gxAt S C row col
        + gyAt S C row col * gyAt S C row col :=
      add_nonneg (mul_self_nonneg _) (mul_self_nonneg _)
    obtain ⟨n, hn⟩ := Int.eq_ofNat_of_zero_le h0
    rw [hn, Int.toNat_natCast]
  · exact_mod_cast Nat.sqrt_le n
  · exact_mod_cast Nat.lt_succ_sqrt n
  · rw [Int.cast_natCast, Real.nat_floor_real_sqrt_eq_nat_sqrt]

theorem C2_stored_byte_truncates_witness :
    ∃ (D' : List Nat) (b : Nat), launch (fun _ => 255) ⟨[0, 0, 0, 0, 0, 0, 0, 0, 2], [0, 0, 0, 0, 0, 0, 0, 0, 0]⟩
        ((3 : Nat) : Int) ((3 : Nat) : Int) = some ⟨[0, 0, 0, 0, 0, 0, 0, 0, 2], D'⟩ ∧
      D'[(0 + 1) * 3 + (0 + 1)]? = some b ∧
      b ≤ 255 ∧
      (b : Int) * b ≤ gxAt [0, 0, 0, 0, 0, 0, 0, 0, 2] 3 0 0 * gxAt [0, 0, 0, 0, 0, 0, 0, 0, 2] 3 0 0
        + gyAt [0, 0, 0, 0, 0, 0, 0, 0, 2] 3 0 0 * gyAt [0, 0, 0, 0, 0, 0, 0, 0, 2] 3 0 0 ∧
      gxAt [0, 0, 0, 0, 0, 0, 0, 0, 2] 3 0 0 * gxAt [0, 0, 0, 0, 0, 0, 0, 0, 2] 3 0 0
        + gyAt [0, 0, 0, 0, 0, 0, 0, 0, 2] 3 0 0 * gyAt [0, 0, 0, 0, 0, 0, 0, 0, 2] 3 0 0
        < ((b : Int) + 1) * (b + 1) ∧
      b = ⌊Real.sqrt ((gxAt [0, 0, 0, 0, 0, 0, 0, 0, 2] 3 0 0 * gxAt [0, 0, 0, 0, 0, 0, 0, 0, 2] 3 0 0
        + gyAt [0, 0, 0, 0, 0, 0, 0, 0, 2] 3 0 0 * gyAt [0, 0, 0, 0, 0, 0, 0, 0, 2] 3 0 0 : Int) : ℝ)⌋₊ :=
  C2_stored_byte_truncates (fun _ => 255) [0, 0, 0, 0, 0, 0, 0, 0, 2] [0, 0, 0, 0, 0, 0, 0, 0, 0]
    3 3 0 0 (by decide) (by decide) (by decide) (by decide)
    (by
      have e : gxAt [0, 0, 0, 0, 0, 0, 0, 0, 2] 3 0 0 * gxAt [0, 0, 0, 0, 0, 0, 0, 0, 2] 3 0 0
          + gyAt [0, 0, 0, 0, 0, 0, 0, 0, 2] 3 0 0 * gyAt [0, 0, 0, 0, 0, 0, 0, 0, 2] 3 0 0 = 8 := by
        decide
      rw [e]
      exact Real.sqrt_le_iff.2 ⟨by norm_num, by norm_num⟩)

/-- C2, counterexample: on the 3 x 3 image whose only non-zero sample is a 2 in
the last position, `gx = gy = 2`, the magnitude `sqrt 8` is below 255, and the
launch stores 2 at the centre; 2 is further than 1/2 from `sqrt 8`, whose
nearest integer is 3. -/
theorem C2_counterexample :
    gxAt [0, 0, 0, 0, 0, 0, 0, 0, 2] 3 0 0 = 2 ∧ gyAt [0, 0, 0, 0, 0, 0, 0, 0, 2] 3 0 0 = 2 ∧
    Real.sqrt (((2 : Int) * 2 + 2 * 2 : Int) : ℝ) ≤ 255 ∧
    (∃ D', launch (fun _ => 255) ⟨[0, 0, 0, 0, 0, 0, 0, 0, 2], [0, 0, 0, 0, 0, 0, 0, 0, 0]⟩ 3 3
        = some ⟨[0, 0, 0, 0, 0, 0, 0, 0, 2], D'⟩ ∧ D'[1 * 3 + 1]? = some 2) ∧
    (1 / 2 : ℝ) < |((2 : Nat) : ℝ) - Real.sqrt (((2 : Int) * 2 + 2 * 2 : Int) : ℝ)| ∧
    |((3 : Nat) : ℝ) - Real.sqrt (((2 : Int) * 2 + 2 * 2 : Int) : ℝ)| < 1 / 2 := by
  have hlo : (5 / 2 : ℝ) < Real.sqrt 8 := by
    rw [Real.lt_sqrt (by norm_num)]
    norm_num
  have hhi : Real.sqrt 8 < 3 := by
    rw [Real.sqrt_lt' (by norm_num)]
    norm_num
  have e8 : ((((2 : Int) * 2 + 2 * 2 : Int)) : ℝ) = 8 := by norm_num
  refine ⟨by decide, by decide, ?_, ?_, ?_, ?_⟩
  · rw [e8]
    exact Real.sqrt_le_iff.2 ⟨by norm_num, by norm_num⟩
  · obtain ⟨D', hrun, _, hcentre, _⟩ := launch_spec (fun _ => 255) [0, 0, 0, 0, 0, 0, 0, 0, 2]
      [0, 0, 0, 0, 0, 0, 0, 0, 0] 3 3 (by decide) (by decide)
    refine ⟨D', hrun, ?_⟩
    have h := hcentre 0 0 (by decide) (by decide)
    have hb : kernelByte (fun _ => 255) [0, 0, 0, 0, 0, 0, 0, 0, 2] 3 0 0 = 2 := by
      have e : gxAt [0, 0, 0, 0, 0, 0, 0, 0, 2] 3 0 0 * gxAt [0, 0, 0, 0, 0, 0, 0, 0, 2] 3 0 0
          + gyAt [0, 0, 0, 0, 0, 0, 0, 0, 2] 3 0 0 * gyAt [0, 0, 0, 0, 0, 0, 0, 0, 2] 3 0 0 = 8 := by
        decide
      have e2 : Int.toNat 8 = 8 := rfl
      rw [kernelByte, e, magnitudeByte, e2]
      norm_num
    rw [hb] at h
    exact h
  · rw [e8, abs_sub_comm, abs_of_pos (by norm_num; linarith)]
    norm_num
    linarith
  · rw [e8, abs_of_pos (by norm_num; linarith)]
    norm_num
    linarith

/-! ## Frame of the launch -/

theorem not_centre_of_border (R C r c : Nat) (hc : c < C)
    (hb : r = 0 ∨ r = R - 1 ∨ c = 0 ∨ c = C - 1) :
    ¬ ∃ row col, row + 2 < R ∧ col + 2 < C ∧ r * C + c = (row + 1) * C + (col + 1) := by
  rintro ⟨row, col, hrow, hcol, heq⟩
  obtain ⟨h1, h2⟩ := index_inj C r c (row + 1) (col + 1) hc (by omega) heq
  omega

/-- C3: for every `R x C` image and every order in which the work-items of the
grid that `main` builds run, the launch does not fault, leaves the source buffer
as it is and keeps the size of the destination buffer; every border position of
the destination holds the value it held before, a position whose value differs
from before is a position `(r, c)` with `1 ≤ r < R - 1` and `1 ≤ c < C - 1`, and
the store targets of the work-items that pass the guard are exactly these
positions. -/
theorem C3_only_interior_written (ovf : Nat → Nat) (S D : List Nat) (R C : Nat)
    (order : List NdItem) (hS : S.length = R * C) (hD : D.length = R * C)
    (hp : order.Perm (workItems R C)) :
    ∃ mem', runItems ovf R C order ⟨S, D⟩ = some mem' ∧
      mem'.input = S ∧ mem'.output.length = D.length ∧
      (∀ r c, r < R → c < C → (r = 0 ∨ r = R - 1 ∨ c = 0 ∨ c = C - 1) →
        mem'.output[r * C + c]? = D[r * C + c]?) ∧
      (∀ k, mem'.output[k]? ≠ D[k]? →
        ∃ r c, 1 ≤ r ∧ r < R - 1 ∧ 1 ≤ c ∧ c < C - 1 ∧ k = r * C + c) ∧
      (∀ k, Written R C order k ↔
        ∃ r c, 1 ≤ r ∧ r < R - 1 ∧ 1 ≤ c ∧ c < C - 1 ∧ k = r * C + c) := by
  obtain ⟨D', hrun, hlen, _, hframe⟩ := schedule_spec ovf S D R C order hS hD hp
  refine ⟨⟨S, D'⟩, hrun, rfl, by rw [hlen, hD], ?_, ?_, ?_⟩
  · intro r c _ hc hb
    exact hframe _ (not_centre_of_border R C r c hc hb)
  · intro k hne
    by_contra hno
    apply hne
    apply hframe
    rintro ⟨row, col, hrow, hcol, rfl⟩
    exact hno ⟨row + 1, col + 1, by omega, by omega, by omega, by omega, rfl⟩
  · intro k
    rw [written_of_perm R C k order _ hp, written_workItems]
    constructor
    · rintro ⟨row, col, hrow, hcol, rfl⟩
      exact ⟨row + 1, col + 1, by omega, by omega, by omega, by omega, rfl⟩
    · rintro ⟨r, c, hr1, hr2, hc1, hc2, rfl⟩
      refine ⟨r - 1, c - 1, by omega, by omega, ?_⟩
      rw [Nat.sub_add_cancel hr1, Nat.sub_add_cancel hc1]

theorem C3_only_interior_written_witness :
    ∃ mem', runItems (fun _ => 255) ((3 : Nat) : Int) ((3 : Nat) : Int) (workItems ((3 : Nat) : Int)
        ((3 : Nat) : Int)) ⟨[1, 2, 3, 4, 5, 6, 7, 8, 9], [7, 7, 7, 7, 7, 7, 7, 7, 7]⟩ = some mem' ∧
      mem'.input = [1, 2, 3, 4, 5, 6, 7, 8, 9] ∧
      mem'.output.length = [7, 7, 7, 7, 7, 7, 7, 7, 7].length ∧
      (∀ r c, r < 3 → c < 3 → (r = 0 ∨ r = 3 - 1 ∨ c = 0 ∨ c = 3 - 1) →
        mem'.output[r * 3 + c]? = [7, 7, 7, 7, 7, 7, 7, 7, 7][r * 3 + c]?) ∧
      (∀ k, mem'.output[k]? ≠ [7, 7, 7, 7, 7, 7, 7, 7, 7][k]? →
        ∃ r c, 1 ≤ r ∧ r < 3 - 1 ∧ 1 ≤ c ∧ c < 3 - 1 ∧ k = r * 3 + c) ∧
      (∀ k, Written 3 3 (workItems ((3 : Nat) : Int) ((3 : Nat) : Int)) k ↔
        ∃ r c, 1 ≤ r ∧ r < 3 - 1 ∧ 1 ≤ c ∧ c < 3 - 1 ∧ k = r * 3 + c) :=
  C3_only_interior_written (fun _ => 255) [1, 2, 3, 4, 5, 6, 7, 8, 9] [7, 7, 7, 7, 7, 7, 7, 7, 7]
    3 3 (workItems ((3 : Nat) : Int) ((3 : Nat) : Int)) (by decide) (by decide) (List.Perm.refl _)

/-! ## Images without an interior -/

theorem guardCond_small (rows cols row col : Int) (hsmall : rows < 3 ∨ cols < 3)
    (hrow : 0 ≤ row) (hcol : 0 ≤ col) : guardCond rows cols row col = true := by
  simp only [guardCond, Bool.or_eq_true, decide_eq_true_eq]
  omega

theorem runItems_all_guarded (ovf : Nat → Nat) (mem : Buffers) (rows cols : Int)
    (items : List NdItem) (h : ∀ item ∈ items, guardCond rows cols item.row item.col = true) :
    runItems ovf rows cols items mem = some mem := by
  induction items with
  | nil => rfl
  | cons item rest ih =>
    rw [runItems, computeGradient_guarded ovf mem rows cols item (h item (List.mem_cons_self _ _))]
    exact ih fun it hit => h it (List.mem_cons_of_mem _ hit)

theorem row_nonneg (item : NdItem) : 0 ≤ item.row := Int.natCast_nonneg _

theorem col_nonneg (item : NdItem) : 0 ≤ item.col := Int.natCast_nonneg _

/-- C4: for an image with `R < 3` or `C < 3` (in particular with `R, C ≥ 0`), the guard of
`computeGradient` is true at every work-item coordinate `row, col ≥ 0`; so a
work-item returns with both buffers as they were, whatever their size (it does
no read and no write, hence cannot fault), and so does the whole launch. -/
theorem C4_small_image_unwritten (ovf : Nat → Nat) (mem : Buffers) (rows cols : Int)
    (hsmall : rows < 3 ∨ cols < 3) :
    (∀ row col : Int, 0 ≤ row → 0 ≤ col → guardCond rows cols row col = true) ∧
    (∀ item : NdItem, computeGradient ovf mem rows cols item = some mem) ∧
    launch ovf mem rows cols = some mem := by
  refine ⟨fun row col hrow hcol => guardCond_small rows cols row col hsmall hrow hcol, ?_, ?_⟩
  · intro item
    exact computeGradient_guarded ovf mem rows cols item
      (guardCond_small rows cols _ _ hsmall (row_nonneg item) (col_nonneg item))
  · exact runItems_all_guarded ovf mem rows cols _ fun item _ =>
      guardCond_small rows cols _ _ hsmall (row_nonneg item) (col_nonneg item)

theorem C4_small_image_unwritten_witness :
    launch (fun _ => 255) ⟨[1, 2, 3, 4, 5, 6, 7, 8, 9, 10], [7, 7, 7, 7, 7, 7, 7, 7, 7, 7]⟩ 2 5
      = some ⟨[1, 2, 3, 4, 5, 6, 7, 8, 9, 10], [7, 7, 7, 7, 7, 7, 7, 7, 7, 7]⟩ :=
  (C4_small_image_unwritten (fun _ => 255)
    ⟨[1, 2, 3, 4, 5, 6, 7, 8, 9, 10], [7, 7, 7, 7, 7, 7, 7, 7, 7, 7]⟩ 2 5
    (Or.inl (by decide))).2.2

/-! ## Known values -/

theorem gxAt_flat (S : List Nat) (C row col v : Nat)
    (h : ∀ i j : Fin 3, pixelAt S C (row + i) (col + j) = v) : gxAt S C row col = 0 := by
  simp only [gxAt, h, Fin.sum_univ_three]
  simp [gradientx, Matrix.vecHead, Matrix.vecTail]

theorem gyAt_flat (S : List Nat) (C row col v : Nat)
    (h : ∀ i j : Fin 3, pixelAt S C (row + i) (col + j) = v) : gyAt S C row col = 0 := by
  simp only [gyAt, h, Fin.sum_univ_three]
  simp [gradienty, Matrix.vecHead, Matrix.vecTail]
  ring

theorem kernelByte_flat (ovf : Nat → Nat) (S : List Nat) (C row col v : Nat)
    (h : ∀ i j : Fin 3, pixelAt S C (row + i) (col + j) = v) : kernelByte ovf S C row col = 0 := by
  rw [kernelByte, gxAt_flat S C row col v h, gyAt_flat S C row col v h]
  simp [magnitudeByte]

theorem pixelAt_uniform (S : List Nat) (C r c v : Nat) (hlt : r * C + c < S.length)
    (h : ∀ x ∈ S, x = v) : pixelAt S C r c = v := by
  rw [pixelAt, List.getD_eq_getElem?_getD, List.getElem?_eq_getElem hlt]
  exact h _ (List.getElem_mem hlt)

/-- C7: the launch on an `R x C` image does not fault and, at every centre
`(row + 1, col + 1)` whose nine window samples are all equal, `gx = 0`, `gy = 0`
and the stored byte is 0; in particular, when all samples of the image have the
same value `v`, the launch stores 0 at every interior position. -/
theorem C7_flat_gives_zero (ovf : Nat → Nat) (S D : List Nat) (R C : Nat)
    (hS : S.length = R * C) (hD : D.length = R * C) :
    ∃ D', launch ovf ⟨S, D⟩ R C = some ⟨S, D'⟩ ∧
      (∀ row col v, row + 2 < R → col + 2 < C →
        (∀ i j : Fin 3, pixelAt S C (row + i) (col + j) = v) →
        gxAt S C row col = 0 ∧ gyAt S C row col = 0 ∧
          D'[(row + 1) * C + (col + 1)]? = some 0) ∧
      (∀ v, (∀ x ∈ S, x = v) →
        ∀ r c, 1 ≤ r → r < R - 1 → 1 ≤ c → c < C - 1 → D'[r * C + c]? = some 0) := by
  obtain ⟨D', hrun, _, hcentre, _⟩ := launch_spec ovf S D R C hS hD
  have hgen : ∀ row col v, row + 2 < R → col + 2 < C →
      (∀ i j : Fin 3, pixelAt S C (row + i) (col + j) = v) →
      D'[(row + 1) * C + (col + 1)]? = some 0 := by
    intro row col v hrow hcol hflat
    rw [hcentre row col hrow hcol, kernelByte_flat ovf S C row col v hflat]
  refine ⟨D', hrun, ?_, ?_⟩
  · intro row col v hrow hcol hflat
    exact ⟨gxAt_flat S C row col v hflat, gyAt_flat S C row col v hflat,
      hgen row col v hrow hcol hflat⟩
  · intro v hv r c hr1 hr2 hc1 hc2
    obtain ⟨row, rfl⟩ : ∃ row, r = row + 1 := ⟨r - 1, by omega⟩
    obtain ⟨col, rfl⟩ : ∃ col, c = col + 1 := ⟨c - 1, by omega⟩
    apply hgen row col v (by omega) (by omega)
    intro i j
    have hi : (i : Nat) < 3 := i.isLt
    have hj : (j : Nat) < 3 := j.isLt
    exact pixelAt_uniform S C _ _ v
      (hS ▸ flat_lt R C (row + i) (col + j) (by omega) (by omega)) hv

theorem C7_flat_gives_zero_witness :
    ∃ D', launch (fun _ => 255) ⟨[9, 9, 9, 9, 9, 9, 9, 9, 9], [7, 7, 7, 7, 7, 7, 7, 7, 7]⟩
        ((3 : Nat) : Int) ((3 : Nat) : Int) = some ⟨[9, 9, 9, 9, 9, 9, 9, 9, 9], D'⟩ ∧
      D'[1 * 3 + 1]? = some 0 := by
  obtain ⟨D', hrun, _, huni⟩ := C7_flat_gives_zero (fun _ => 255) [9, 9, 9, 9, 9, 9, 9, 9, 9]
    [7, 7, 7, 7, 7, 7, 7, 7, 7] 3 3 (by decide) (by decide)
  exact ⟨D', hrun, huni 9 (by decide) 1 1 (by decide) (by decide) (by decide) (by decide)⟩

theorem kernelByte_eq (ovf : Nat → Nat) (S : List Nat) (C row col : Nat) (gx gy : Int) (n b : Nat)
    (hx : gxAt S C row col = gx) (hy : gyAt S C row col = gy) (hn : gx * gx + gy * gy = (n : Int))
    (hb : Nat.sqrt n = b) (hle : b ≤ 255) : kernelByte ovf S C row col = b := by
  rw [kernelByte, hx, hy, hn, magnitudeByte, Int.toNat_natCast, hb, if_pos hle]

theorem kernelByte_image6 (ovf : Nat → Nat) (row col : Nat) (hrow : row < 4) (hcol : col < 4) :
    kernelByte ovf image6 6 row col =
      if (row = 1 ∨ row = 3) ∧ (col = 1 ∨ col = 3) then 141
      else if (row = 2 ∧ (col = 1 ∨ col = 3)) ∨ (col = 2 ∧ (row = 1 ∨ row = 3)) then 200
      else 0 := by
  interval_cases row <;> interval_cases col
  · exact kernelByte_eq ovf image6 6 0 0 0 0 0 0 (by decide) (by decide)
      (by norm_num) (by norm_num) (by norm_num)
  · exact kernelByte_eq ovf image6 6 0 1 0 0 0 0 (by decide) (by decide)
      (by norm_num) (by norm_num) (by norm_num)
  · exact kernelByte_eq ovf image6 6 0 2 0 0 0 0 (by decide) (by decide)
      (by norm_num) (by norm_num) (by norm_num)
  · exact kernelByte_eq ovf image6 6 0 3 0 0 0 0 (by decide) (by decide)
      (by norm_num) (by norm_num) (by norm_num)
  · exact kernelByte_eq ovf image6 6 1 0 0 0 0 0 (by decide) (by decide)
      (by norm_num) (by norm_num) (by norm_num)
  · exact kernelByte_eq ovf image6 6 1 1 (-100) (-100) 20000 141 (by decide) (by decide)
      (by norm_num) (by norm_num) (by norm_num)
  · exact kernelByte_eq ovf image6 6 1 2 0 (-200) 40000 200 (by decide) (by decide)
      (by norm_num) (by norm_num) (by norm_num)
  · exact kernelByte_eq ovf image6 6 1 3 100 (-100) 20000 141 (by decide) (by decide)
      (by norm_num) (by norm_num) (by norm_num)
  · exact kernelByte_eq ovf image6 6 2 0 0 0 0 0 (by decide) (by decide)
      (by norm_num) (by norm_num) (by norm_num)
  · exact kernelByte_eq ovf image6 6 2 1 (-200) 0 40000 200 (by decide) (by decide)
      (by norm_num) (by norm_num) (by norm_num)
  · exact kernelByte_eq ovf image6 6 2 2 0 0 0 0 (by decide) (by decide)
      (by norm_num) (by norm_num) (by norm_num)
  · exact kernelByte_eq ovf image6 6 2 3 200 0 40000 200 (by decide) (by decide)
      (by norm_num) (by norm_num) (by norm_num)
  · exact kernelByte_eq ovf image6 6 3 0 0 0 0 0 (by decide) (by decide)
      (by norm_num) (by norm_num) (by norm_num)
  · exact kernelByte_eq ovf image6 6 3 1 (-100) 100 20000 141 (by decide) (by decide)
      (by norm_num) (by norm_num) (by norm_num)
  · exact kernelByte_eq ovf image6 6 3 2 0 200 40000 200 (by decide) (by decide)
      (by norm_num) (by norm_num) (by norm_num)
  · exact kernelByte_eq ovf image6 6 3 3 100 100 20000 141 (by decide) (by decide)
      (by norm_num) (by norm_num) (by norm_num)

/-- C8: on the 6 x 6 image whose samples are all 100 except sample `(3, 3)`,
which is 0, the launch does not fault and its output at an interior position
`(r, c)`, `1 ≤ r, c ≤ 4`, is non-zero exactly at the eight positions `(2, 2)`,
`(2, 3)`, `(2, 4)`, `(3, 2)`, `(3, 4)`, `(4, 2)`, `(4, 3)`, `(4, 4)`; it is 0 at
every other interior position, `(3, 3)` included. -/
theorem C8_single_dark_pixel (ovf : Nat → Nat) (D : List Nat) (hD : D.length = 36) :
    ∃ D', launch ovf ⟨image6, D⟩ 6 6 = some ⟨image6, D'⟩ ∧
      ∀ r c, 1 ≤ r → r ≤ 4 → 1 ≤ c → c ≤ 4 →
        ∃ b, D'[r * 6 + c]? = some b ∧
          (b ≠ 0 ↔ (r, c) ∈ [(2, 2), (2, 3), (2, 4), (3, 2), (3, 4), (4, 2), (4, 3), (4, 4)]) ∧
          (b = 0 ↔ (r, c) ∉ [(2, 2), (2, 3), (2, 4), (3, 2), (3, 4), (4, 2), (4, 3), (4, 4)]) := by
  obtain ⟨D', hrun, _, hcentre, _⟩ := launch_spec ovf image6 D 6 6 (by decide) hD
  refine ⟨D', hrun, ?_⟩
  intro r c hr1 hr4 hc1 hc4
  obtain ⟨row, rfl⟩ : ∃ row, r = row + 1 := ⟨r - 1, by omega⟩
  obtain ⟨col, rfl⟩ : ∃ col, c = col + 1 := ⟨c - 1, by omega⟩
  refine ⟨_, hcentre row col (by omega) (by omega), ?_⟩
  rw [kernelByte_image6 ovf row col (by omega) (by omega)]
  have hrow : row < 4 := by omega
  have hcol : col < 4 := by omega
  interval_cases row <;> interval_cases col <;> decide

theorem C8_single_dark_pixel_witness :
    ∃ D', launch (fun _ => 255) ⟨image6, List.replicate 36 7⟩ 6 6 = some ⟨image6, D'⟩ ∧
      ∃ b, D'[2 * 6 + 3]? = some b ∧ b ≠ 0 := by
  obtain ⟨D', hrun, h⟩ := C8_single_dark_pixel (fun _ => 255) (List.replicate 36 7) (by decide)
  obtain ⟨b, hb, hne, _⟩ := h 2 3 (by decide) (by decide) (by decide) (by decide)
  exact ⟨D', hrun, b, hb, hne.2 (by decide)⟩

/-! ## The tiling of the interior -/

theorem nodup_globalIds (n m : Nat) : (List.range n ×ˢ List.range m).Nodup :=
  List.Nodup.product (List.nodup_range n) (List.nodup_range m)

theorem countP_unique {α : Type} (q : α → Bool) (a : α) :
    ∀ l : List α, l.Nodup → a ∈ l → (∀ x ∈ l, (q x = true ↔ x = a)) → l.countP q = 1 := by
  intro l
  induction l with
  | nil => intro _ h; cases h
  | cons b t ih =>
    intro hnd hmem hq
    obtain ⟨hb, ht⟩ := List.nodup_cons.1 hnd
    by_cases hba : b = a
    · have hqb : q b = true := (hq b (List.mem_cons_self _ _)).2 hba
      have hzero : t.countP q = 0 := by
        rw [List.countP_eq_zero]
        intro x hx hqx
        have hxa : x = a := (hq x (List.mem_cons_of_mem _ hx)).1 hqx
        exact hb (hba ▸ hxa ▸ hx)
      rw [List.countP_cons_of_pos _ _ hqb, hzero]
    · have hqb : ¬ q b = true := fun h => hba ((hq b (List.mem_cons_self _ _)).1 h)
      have hat : a ∈ t := by
        rcases List.mem_cons.1 hmem with h | h
        · exact absurd h.symm hba
        · exact h
      rw [List.countP_cons_of_neg _ _ hqb]
      exact ih ht hat fun x hx => hq x (List.mem_cons_of_mem _ hx)

theorem countP_workItems (R C row col : Nat) (p : NdItem → Bool)
    (hrow : row < (R - 1) / 2 * 2) (hcol : col < (C + 61) / 64 * 64)
    (hp : ∀ y x, y < (R - 1) / 2 * 2 → x < (C + 61) / 64 * 64 →
      (p ⟨y / 2, x / 64, 2, 64, y % 2, x % 64⟩ = true ↔ y = row ∧ x = col)) :
    (workItems R C).countP p = 1 := by
  rw [workItems, grid_eq, block_eq, List.countP_map]
  apply countP_unique _ (row, col) _ (nodup_globalIds _ _)
    (List.mem_product.2 ⟨List.mem_range.2 hrow, List.mem_range.2 hcol⟩)
  rintro ⟨y, x⟩ hmem
  obtain ⟨hy, hx⟩ := List.mem_product.1 hmem
  simp only [Function.comp, itemOfGlobalId, Prod.mk.injEq]
  exact hp y x (List.mem_range.1 hy) (List.mem_range.1 hx)

theorem grid_ceil (n k : Nat) (hk : 0 < k) :
    (((n + (k - 1)) / k : Nat) : Int) = ⌈(n : ℚ) / k⌉ := by
  symm
  rw [Int.ceil_eq_iff]
  have hkq : (0 : ℚ) < k := by exact_mod_cast hk
  have hd := Nat.div_add_mod (n + (k - 1)) k
  have hm := Nat.mod_lt (n + (k - 1)) hk
  generalize (n + (k - 1)) / k = g at hd
  generalize (n + (k - 1)) % k = r at hd hm
  have h1 : k * g + 1 ≤ n + k := by omega
  have h2 : n ≤ k * g := by omega
  have h1q : (k : ℚ) * g + 1 ≤ n + k := by exact_mod_cast h1
  have h2q : (n : ℚ) ≤ k * g := by exact_mod_cast h2
  constructor
  · rw [lt_div_iff₀ hkq]
    push_cast
    linarith
  · rw [div_le_iff₀ hkq]
    push_cast
    linarith

/-- C10: for `R, C ≥ 3` the launch has work-groups of 2 x 64 work-items and a
grid of `(R - 2 + 1) / 2` by `(C - 2 + 63) / 64` work-groups, which are the
ceilings of `(R - 2) / 2` and `(C - 2) / 64`.  For every `(row, col)` with
`row < R - 2` and `col < C - 2` exactly one work-item of the launch has
`group(1) * 2 + local(1) = row` and `group(2) * 64 + local(2) = col`; a
work-item of the launch passes the guard exactly when its coordinates are in
that range, so every other work-item is discarded; and for every interior
position `(r, c)` exactly one work-item of the launch passes the guard and
stores at `r * C + c`. -/
theorem C10_launch_tiles_interior (R C : Nat) (hR : 3 ≤ R) (hC : 3 ≤ C) :
    block = (2, 64) ∧
    grid R C = ((R - 2 + 1) / 2, (C - 2 + 63) / 64) ∧
    (((grid R C).1 : Nat) : Int) = ⌈((R - 2 : Nat) : ℚ) / (2 : Nat)⌉ ∧
    (((grid R C).2 : Nat) : Int) = ⌈((C - 2 : Nat) : ℚ) / (64 : Nat)⌉ ∧
    (∀ item ∈ workItems R C,
      item.localRange1 = 2 ∧ item.localRange2 = 64 ∧ item.localId1 < 2 ∧ item.localId2 < 64 ∧
        item.group1 < (grid R C).1 ∧ item.group2 < (grid R C).2) ∧
    (∀ row col, row < R - 2 → col < C - 2 →
      (workItems R C).countP (fun item =>
        decide (item.group1 * 2 + item.localId1 = row ∧
          item.group2 * 64 + item.localId2 = col)) = 1) ∧
    (∀ item ∈ workItems R C,
      (guardCond R C item.row item.col = false ↔
        item.group1 * 2 + item.localId1 < R - 2 ∧ item.group2 * 64 + item.localId2 < C - 2)) ∧
    (∀ r c, 1 ≤ r → r < R - 1 → 1 ≤ c → c < C - 1 →
      (workItems R C).countP (fun item =>
        !guardCond R C item.row item.col &&
          decide ((item.row + 1) * C + (item.col + 1) = ((r * C + c : Nat) : Int))) = 1) := by
  have hg : grid R C = ((R - 2 + 1) / 2, (C - 2 + 63) / 64) := by
    rw [grid_eq]
    congr 2 <;> omega
  refine ⟨rfl, hg, ?_, ?_, ?_, ?_, ?_, ?_⟩
  · rw [hg]
    exact grid_ceil (R - 2) 2 (by decide)
  · rw [hg]
    exact grid_ceil (C - 2) 64 (by decide)
  · intro item hmem
    obtain ⟨y, x, hy, hx, rfl⟩ := (mem_workItems R C item).1 hmem
    rw [grid_eq]
    refine ⟨rfl, rfl, ?_, ?_, ?_, ?_⟩ <;> simp only <;> omega
  · intro row col hrow hcol
    apply countP_workItems R C row col _ (by omega) (by omega)
    intro y x _ _
    simp only [decide_eq_true_eq]
    omega
  · intro item hmem
    obtain ⟨y, x, hy, hx, rfl⟩ := (mem_workItems R C item).1 hmem
    rw [row_of_globalId, col_of_globalId, guardCond_false_iff]
    simp only
    omega
  · intro r c hr1 hr2 hc1 hc2
    obtain ⟨row, rfl⟩ : ∃ row, r = row + 1 := ⟨r - 1, by omega⟩
    obtain ⟨col, rfl⟩ : ∃ col, c = col + 1 := ⟨c - 1, by omega⟩
    apply countP_workItems R C row col _ (by omega) (by omega)
    intro y x _ _
    rw [row_of_globalId, col_of_globalId]
    simp only [Bool.and_eq_true, Bool.not_eq_true', decide_eq_true_eq, guardCond_false_iff]
    constructor
    · rintro ⟨⟨hy, hx⟩, heq⟩
      have heq' : (y + 1) * C + (x + 1) = (row + 1) * C + (col + 1) := by exact_mod_cast heq
      obtain ⟨h1, h2⟩ := index_inj C (y + 1) (x + 1) (row + 1) (col + 1) (by omega) (by omega) heq'
      omega
    · rintro ⟨rfl, rfl⟩
      refine ⟨⟨by omega, by omega⟩, ?_⟩
      push_cast
      ring

theorem C10_launch_tiles_interior_witness :
    (workItems ((6 : Nat) : Int) ((6 : Nat) : Int)).countP (fun item =>
      decide (item.group1 * 2 + item.localId1 = 3 ∧ item.group2 * 64 + item.localId2 = 2)) = 1 :=
  (C10_launch_tiles_interior 6 6 (by decide) (by decide)).2.2.2.2.2.1 3 2 (by decide) (by decide)

/-! ## The range of the two responses -/

theorem pixelAt_le (S : List Nat) (C r c : Nat) (hb : ∀ x ∈ S, x ≤ 255) :
    pixelAt S C r c ≤ 255 := by
  rw [pixelAt, List.getD_eq_getElem?_getD]
  by_cases hlt : r * C + c < S.length
  · rw [List.getElem?_eq_getElem hlt]
    exact hb _ (List.getElem_mem hlt)
  · rw [List.getElem?_eq_none (by omega)]
    exact Nat.zero_le _

/-- For an image of bytes, `gradient_x` and `gradient_y` have magnitude at most
1020 and the sum of their squares is below `2 ^ 24`: all of them are values of
`float`, so that the arithmetic of the kernel is exact. -/
theorem gradient_bounds (S : List Nat) (C row col : Nat) (hb : ∀ x ∈ S, x ≤ 255) :
    |gxAt S C row col| ≤ 1020 ∧ |gyAt S C row col| ≤ 1020 ∧
      gxAt S C row col * gxAt S C row col + gyAt S C row col * gyAt S C row col < 2 ^ 24 := by
  have h00 := pixelAt_le S C row col hb
  have h01 := pixelAt_le S C row (col + 1) hb
  have h02 := pixelAt_le S C row (col + 2) hb
  have h10 := pixelAt_le S C (row + 1) col hb
  have h12 := pixelAt_le S C (row + 1) (col + 2) hb
  have h20 := pixelAt_le S C (row + 2) col hb
  have h21 := pixelAt_le S C (row + 2) (col + 1) hb
  have h22 := pixelAt_le S C (row + 2) (col + 2) hb
  have hx : |gxAt S C row col| ≤ 1020 := by
    rw [abs_le]
    simp only [gxAt, Fin.sum_univ_three]
    simp [gradientx, Matrix.vecHead, Matrix.vecTail]
    omega
  have hy : |gyAt S C row col| ≤ 1020 := by
    rw [abs_le]
    simp only [gyAt, Fin.sum_univ_three]
    simp [gradienty, Matrix.vecHead, Matrix.vecTail]
    omega
  refine ⟨hx, hy, ?_⟩
  have hx2 : gxAt S C row col * gxAt S C row col ≤ 1020 * 1020 := by
    rw [← abs_mul_abs_self]
    exact mul_le_mul hx hx (abs_nonneg _) (by norm_num)
  have hy2 : gyAt S C row col * gyAt S C row col ≤ 1020 * 1020 := by
    rw [← abs_mul_abs_self]
    exact mul_le_mul hy hy (abs_nonneg _) (by norm_num)
  norm_num at hx2 hy2 ⊢
  omega
/-! ## The crop -/

/-- C6: the check of `main` rejects exactly the iteration counts below 0 or
above 100; the count 0, which is outside the range `[1, 100]` that the error
message names, is not rejected, and with it `main` runs no iteration and crops
the gradient image it never wrote. -/
theorem C6_zero_not_rejected :
    iterationCountRejected 0 = false ∧
    (∀ n : Int, iterationCountRejected n = true ↔ (n < 0 ∨ 100 < n)) ∧
    main (fun _ => 255) true (fun _ => ⟨true, true, fun _ => 170, fun _ => 85, false, false,
        false⟩) (fun _ => 7) ⟨3, 3, [1, 2, 3, 4, 5, 6, 7, 8, 9]⟩ 0
      = ⟨some ⟨1, 1, [7]⟩, ⟨[], 0, 0, 0, 0⟩⟩ := by
  refine ⟨by decide, ?_, by decide⟩
  intro n
  simp only [iterationCountRejected, Bool.or_eq_true, decide_eq_true_eq, gt_iff_lt]

/-- C9, as amended: an iteration that no exception leaves has made two
allocations and released each of them once, with no invalid free, and leaves
the live allocations as they were; an iteration that an exception leaves has
executed no free, so the allocations it made are still live.  An iteration
with a failed allocation, or in which the upload, the launch or the download
raises, is left by an exception. -/
theorem C9_release_only_on_normal_path (ovf : Nat → Nat) (rt : Runtime) (scaledImage : Mat)
    (rows cols : Int) (globalsize : Nat) (h : Host) :
    (iteration ovf rt scaledImage rows cols globalsize h).1.device.invalidFrees
      = h.device.invalidFrees ∧
    (iteration ovf rt scaledImage rows cols globalsize h).1.device.mallocs
      = h.device.mallocs + rt.inputAllocated.toNat + rt.gradientAllocated.toNat ∧
    (iteration ovf rt scaledImage rows cols globalsize h).1.device.frees
      = h.device.frees
        + (if (iteration ovf rt scaledImage rows cols globalsize h).2 then 0 else 2) ∧
    (iteration ovf rt scaledImage rows cols globalsize h).1.device.live.length
      = h.device.live.length
        + (if (iteration ovf rt scaledImage rows cols globalsize h).2
            then rt.inputAllocated.toNat + rt.gradientAllocated.toNat else 0) ∧
    ((iteration ovf rt scaledImage rows cols globalsize h).2 = true ∨
      ((iteration ovf rt scaledImage rows cols globalsize h).1.device.live = h.device.live ∧
        rt.inputAllocated = true ∧ rt.gradientAllocated = true ∧ rt.uploadRaises = false ∧
        rt.kernelRaises = false ∧ rt.downloadRaises = false)) := by
  obtain ⟨a, b, u1, u2, c, d, e⟩ := rt
  cases a <;> cases b <;> cases c <;> cases d <;> cases e <;>
    simp [iteration, malloc_device, free] <;>
    (cases launch ovf _ rows cols <;> simp)

/-- C9, counterexample: in an iteration in which both allocations succeed and
the kernel launch raises, control leaves the iteration with two allocations
made and no free executed; both buffers are still live. -/
theorem C9_counterexample :
    (iteration (fun _ => 255) ⟨true, true, fun _ => 170, fun _ => 85, false, true, false⟩
        ⟨3, 3, [1, 2, 3, 4, 5, 6, 7, 8, 9]⟩ 3 3 9
        ⟨⟨3, 3, [7, 7, 7, 7, 7, 7, 7, 7, 7]⟩, ⟨[], 0, 0, 0, 0⟩⟩).2 = true ∧
    (iteration (fun _ => 255) ⟨true, true, fun _ => 170, fun _ => 85, false, true, false⟩
        ⟨3, 3, [1, 2, 3, 4, 5, 6, 7, 8, 9]⟩ 3 3 9
        ⟨⟨3, 3, [7, 7, 7, 7, 7, 7, 7, 7, 7]⟩, ⟨[], 0, 0, 0, 0⟩⟩).1.device
      = ⟨[1, 0], 2, 2, 0, 0⟩ ∧
    (main (fun _ => 255) true (fun _ => ⟨true, true, fun _ => 170, fun _ => 85, false, true,
        false⟩) (fun _ => 7) ⟨3, 3, [1, 2, 3, 4, 5, 6, 7, 8, 9]⟩ 1)
      = ⟨none, ⟨[1, 0], 2, 2, 0, 0⟩⟩ := by
  refine ⟨by decide, by decide, by decide⟩

/-! ## The index arithmetic does not overflow -/

theorem gradients_eq_none_iff (input : List Nat) (cols row col : Int) :
    gradients input cols row col = none ↔
      ∃ i ∈ readIndices cols row col, load input i = none := by
  simp only [gradients, readIndices, Option.bind_eq_bind, Option.pure_def, List.mem_cons,
    List.mem_singleton, List.not_mem_nil, or_false, exists_eq_or_imp, exists_eq_left]
  generalize load input (row * cols + col + cols + 1 - cols - 1) = o1
  generalize load input (row * cols + col + cols + 1 - cols) = o2
  generalize load input (row * cols + col + cols + 1 - cols + 1) = o3
  generalize load input (row * cols + col + cols + 1 - 1) = o4
  generalize load input (row * cols + col + cols + 1) = o5
  generalize load input (row * cols + col + cols + 1 + 1) = o6
  generalize load input (row * cols + col + cols + 1 + cols - 1) = o7
  generalize load input (row * cols + col + cols + 1 + cols) = o8
  generalize load input (row * cols + col + cols + 1 + cols + 1) = o9
  cases o1 <;> simp
  cases o2 <;> simp
  cases o3 <;> simp
  cases o4 <;> simp
  cases o5 <;> simp
  cases o6 <;> simp
  cases o7 <;> simp
  cases o8 <;> simp
  cases o9 <;> simp

theorem checkedInt_of_range (x : Int) (h1 : -2147483648 ≤ x) (h2 : x ≤ 2147483647) :
    checkedInt x = some x := by
  rw [checkedInt, if_pos ⟨h1, h2⟩]

theorem window_le (R C r c : Nat) (hr : r + 2 < R) (hc : c + 2 < C) :
    r * C + c + C + 1 + C + 1 < R * C := by
  have h : (r + 3) * C ≤ R * C := Nat.mul_le_mul_right C hr
  have e : (r + 3) * C = r * C + C + C + C := by ring
  omega

theorem indexArithmetic_eq (R C r c : Nat) (hrep : (R : Int) * C ≤ INT_MAX)
    (hr : r + 2 < R) (hc : c + 2 < C) :
    indexArithmetic C r c = some ⟨(r : Int) * C + c + C + 1, readIndices C r c⟩ := by
  have hw : ((r * C + c + C + 1 + C + 1 : Nat) : Int) < ((R * C : Nat) : Int) :=
    Int.ofNat_lt.2 (window_le R C r c hr hc)
  push_cast at hw
  have hp : (0 : Int) ≤ (r : Int) * C := by positivity
  rw [INT_MAX] at hrep
  simp only [indexArithmetic, Option.bind_eq_bind, Option.pure_def, readIndices]
  rw [checkedInt_of_range _ (by omega) (by omega), Option.some_bind,
    checkedInt_of_range _ (by omega) (by omega), Option.some_bind,
    checkedInt_of_range _ (by omega) (by omega), Option.some_bind,
    checkedInt_of_range _ (by omega) (by omega), Option.some_bind,
    checkedInt_of_range _ (by omega) (by omega), Option.some_bind,
    checkedInt_of_range _ (by omega) (by omega), Option.some_bind,
    checkedInt_of_range _ (by omega) (by omega), Option.some_bind,
    checkedInt_of_range _ (by omega) (by omega), Option.some_bind,
    checkedInt_of_range _ (by omega) (by omega), Option.some_bind,
    checkedInt_of_range _ (by omega) (by omega), Option.some_bind,
    checkedInt_of_range _ (by omega) (by omega), Option.some_bind,
    checkedInt_of_range _ (by omega) (by omega), Option.some_bind]

theorem globalsize_eq (R C : Nat) (hrep : (R : Int) * C ≤ INT_MAX) :
    globalsize R C = some (R * C) := by
  have hp : (0 : Int) ≤ (R : Int) * C := by positivity
  rw [INT_MAX] at hrep
  rw [globalsize, checkedInt_of_range _ (by omega) hrep, Option.map_some', toSizeT,
    ← Int.natCast_mul, Int.toNat_natCast]

theorem readIndices_get (C r c i j : Nat) (hi : i < 3) (hj : j < 3) :
    (readIndices C r c)[3 * i + j]? = some (((r + i) * C + (c + j) : Nat) : Int) := by
  interval_cases i <;> interval_cases j <;> simp [readIndices] <;> ring

/-- C11: for an `R x C` image with `R * C` representable in a 32-bit `int` and a
work-item `(row, col)`, `row, col ≥ 0`, that passes the guard (there is one only
if `R, C ≥ 3`): `globalsize` is
`R * C`; no operation of the index arithmetic overflows; the index stored at is
`(row + 1) * C + (col + 1)`, lies in `[0, R * C)` and is the flat index of a
centre that is not on the border; the nine subscripts read are
`(row + i) * C + (col + j)`, `i, j ∈ {0, 1, 2}`, each in `[0, R * C)` with
`0 ≤ row + i < R` and `0 ≤ col + j < C`, so each is the flat index of the sample
`(row + i, col + j)` and of no sample of another row; and on buffers of
`globalsize` bytes the nine reads and the write do not fault. -/
theorem C11_indices_in_bounds (R C : Nat) (row col : Int)
    (hrep : (R : Int) * C ≤ INT_MAX) (hrow : 0 ≤ row) (hcol : 0 ≤ col)
    (hg : guardCond R C row col = false) :
    globalsize R C = some (R * C) ∧
    indexArithmetic C row col = some ⟨(row + 1) * C + (col + 1), readIndices C row col⟩ ∧
    (0 ≤ (row + 1) * C + (col + 1) ∧ (row + 1) * C + (col + 1) < (R : Int) * C) ∧
    (1 ≤ row + 1 ∧ row + 1 < (R : Int) - 1 ∧ 1 ≤ col + 1 ∧ col + 1 < (C : Int) - 1) ∧
    (((row + 1) * C + (col + 1)) / C = row + 1 ∧ ((row + 1) * C + (col + 1)) % C = col + 1) ∧
    (∀ i j : Nat, i < 3 → j < 3 →
      (readIndices C row col)[3 * i + j]? = some ((row + i) * C + (col + j)) ∧
      0 ≤ (row + i) * C + (col + j) ∧ (row + i) * C + (col + j) < (R : Int) * C ∧
      0 ≤ row + i ∧ row + i < (R : Int) ∧ 0 ≤ col + j ∧ col + j < (C : Int) ∧
      ((row + i) * C + (col + j)) / C = row + i ∧ ((row + i) * C + (col + j)) % C = col + j) ∧
    (∀ input : List Nat, input.length = R * C →
      (∀ k ∈ readIndices C row col, (load input k).isSome = true) ∧
      ∀ i j : Nat, i < 3 → j < 3 →
        load input ((row + i) * C + (col + j))
          = some (pixelAt input C (row + i).toNat (col + j).toNat)) ∧
    (∀ (output : List Nat) (v : Nat), output.length = R * C →
      store output ((row + 1) * C + (col + 1)) v
        = some (output.set ((row + 1) * C + (col + 1)).toNat v)) := by
  obtain ⟨r, rfl⟩ := Int.eq_ofNat_of_zero_le hrow
  obtain ⟨c, rfl⟩ := Int.eq_ofNat_of_zero_le hcol
  obtain ⟨hr, hc⟩ := (guardCond_false_iff R C r c).1 hg
  have hflat : ∀ i j : Nat, i < 3 → j < 3 →
      ((r : Int) + i) * C + ((c : Int) + j) = (((r + i) * C + (c + j) : Nat) : Int) := by
    intro i j _ _
    push_cast
    ring
  have hlt : ∀ i j : Nat, i < 3 → j < 3 → (r + i) * C + (c + j) < R * C := by
    intro i j hi hj
    exact flat_lt R C (r + i) (c + j) (by omega) (by omega)
  have hdm : ∀ a b : Nat, b < C →
      ((a : Int) * C + b) / C = a ∧ ((a : Int) * C + b) % C = b := by
    intro a b hb
    have h1 := index_div C a b hb
    have h2 := index_mod C a b hb
    have e1 : ((a : Int) * C + b) / C = (((a * C + b) / C : Nat) : Int) := by
      push_cast
      rfl
    have e2 : ((a : Int) * C + b) % C = (((a * C + b) % C : Nat) : Int) := by
      push_cast
      rfl
    rw [e1, e2, h1, h2]
    exact ⟨rfl, rfl⟩
  have hidx : ((r : Int) + 1) * C + ((c : Int) + 1) = (r : Int) * C + c + C + 1 := by ring
  have hcentre : ((r : Int) + 1) * C + ((c : Int) + 1) = (((r + 1) * C + (c + 1) : Nat) : Int) := by
    push_cast
    ring
  have hclt : (r + 1) * C + (c + 1) < R * C := flat_lt R C (r + 1) (c + 1) (by omega) (by omega)
  refine ⟨globalsize_eq R C hrep, ?_, ?_, ?_, ?_, ?_, ?_, ?_⟩
  · rw [hidx]
    exact indexArithmetic_eq R C r c hrep hr hc
  · rw [hcentre]
    constructor
    · positivity
    · exact_mod_cast hclt
  · omega
  · have h := hdm (r + 1) (c + 1) (by omega)
    push_cast at h
    exact h
  · intro i j hi hj
    have h := hlt i j hi hj
    have hd := hdm (r + i) (c + j) (by omega)
    push_cast at hd
    refine ⟨?_, ?_, ?_, by omega, by omega, by omega, by omega, hd.1, hd.2⟩
    · rw [readIndices_get C r c i j hi hj, hflat i j hi hj]
    · rw [hflat i j hi hj]
      positivity
    · rw [hflat i j hi hj]
      exact_mod_cast h
  · intro input hlen
    have hload : ∀ i j : Nat, i < 3 → j < 3 →
        load input (((r : Int) + i) * C + ((c : Int) + j))
          = some (pixelAt input C (r + i) (c + j)) := by
      intro i j hi hj
      exact load_pixel input R C (r + i) (c + j) _ hlen (by omega) (by omega) (hflat i j hi hj)
    constructor
    · intro k hk
      have hne : gradients input C r c ≠ none := by
        rw [gradients_eq input R C r c hlen hr hc]
        exact Option.some_ne_none _
      rw [Ne, gradients_eq_none_iff] at hne
      rcases h : load input k with _ | v
      · exact absurd ⟨k, hk, h⟩ hne
      · rfl
    · intro i j hi hj
      rw [hload i j hi hj]
      rfl
  · intro output v hlen
    rw [hcentre, store, Int.toNat_natCast, if_pos ⟨Int.natCast_nonneg _, hlen ▸ hclt⟩]

theorem C11_indices_in_bounds_witness :
    indexArithmetic ((6 : Nat) : Int) 3 2
      = some ⟨(3 + 1) * ((6 : Nat) : Int) + (2 + 1), readIndices ((6 : Nat) : Int) 3 2⟩ :=
  (C11_indices_in_bounds 6 6 3 2 (by decide) (by decide) (by decide) (by decide)).2.1

/-- The bound on `R * C` in `C11_indices_in_bounds` is needed: on an image of
46341 x 46341 samples, whose size is not an `int`, the product that
`globalsize` is initialised with overflows, and so does `index_row_below` of
the last work-item that passes the guard. -/
theorem indexArithmetic_overflow :
    globalsize 46341 46341 = none ∧ guardCond 46341 46341 46338 46338 = false ∧
      indexArithmetic 46341 46338 46338 = none := by
  decide

end Sobel
